import Mathlib

/-!
Shallow embedding of the `ws2812-spi` crate (smart-leds-rs/ws2812-spi-rs)
and verification of its specification claims.

The crate drives WS2812 ("NeoPixel") LED strips through an SPI peripheral
by expanding each colour-channel byte into oversampled SPI bytes.  It has
four variants:

* `src/lib.rs`      — streaming: each encoded byte is written to the bus
                      immediately (`spi.write(from_ref(&byte))`);
* `src/prerendered.rs` — the frame is encoded into a caller-supplied
                      `&mut [u8]` buffer and sent in one bulk transfer;
* `src/hosted.rs`   — the frame is appended to an owned, growable `Vec<u8>`
                      that is pre-seeded with 140 zero bytes;
* `src/halfduplex.rs` — streaming variant that encodes one logical bit per
                      SPI byte and sends a dummy byte first.

Transports are modelled as a recorded trace of sent bytes (an error-free
mock transport, as in the spec's end-to-end scenario).  Machine integers
are modelled as `Nat` with explicit `% 2 ^ w` where wrap-around matters.
-/

set_option maxRecDepth 8192

namespace WsSpi

/-- `RGB8` from `smart_leds_trait`: three 8-bit channels. -/
structure RGB8 where
  r : Nat
  g : Nat
  b : Nat
  deriving DecidableEq, Repr

/-! ### Pixel order (`lib.rs`, `impl_ordered_colors!`)

Each `OrderedColors` impl returns the three channel fields in the wire
order named by the type.  `GRB` is the default pixel order. -/

/-- `OrderedColors for pixel_order::RGB`: `[color.r, color.g, color.b]`. -/
def order_RGB (c : RGB8) : List Nat := [c.r, c.g, c.b]

/-- `OrderedColors for pixel_order::RBG`: `[color.r, color.b, color.g]`. -/
def order_RBG (c : RGB8) : List Nat := [c.r, c.b, c.g]

/-- `OrderedColors for pixel_order::GRB` (the default): `[color.g, color.r, color.b]`. -/
def order_GRB (c : RGB8) : List Nat := [c.g, c.r, c.b]

/-- `OrderedColors for pixel_order::GBR`: `[color.g, color.b, color.r]`. -/
def order_GBR (c : RGB8) : List Nat := [c.g, c.b, c.r]

/-- `OrderedColors for pixel_order::BRG`: `[color.b, color.r, color.g]`. -/
def order_BRG (c : RGB8) : List Nat := [c.b, c.r, c.g]

/-- `OrderedColors for pixel_order::BGR`: `[color.b, color.g, color.r]`. -/
def order_BGR (c : RGB8) : List Nat := [c.b, c.g, c.r]

/-! ### The fixed 4x-oversampling encoder (`lib.rs`, `Ws2812::write_byte`)

```rust
let patterns = [0b1000_1000, 0b1000_1110, 0b11101000, 0b11101110];
for _ in 0..4 {
    let bits = (data & 0b1100_0000) >> 6;
    self.spi.write(from_ref(&patterns[bits as usize]))?;
    data <<= 2;
}
```
-/

/-- The 4-entry lookup table `patterns` of `write_byte`. -/
def patterns : List Nat := [0b10001000, 0b10001110, 0b11101000, 0b11101110]

/-- One loop iteration's emitted byte: `patterns[(data & 0b1100_0000) >> 6]`. -/
def patternOf (d : Nat) : Nat := patterns.getD ((d &&& 0xC0) >>> 6) 0

/-- The `for _ in 0..4` loop of `write_byte`, as the list of bytes it emits.
`d` is the current value of the `u8` variable `data`; `data <<= 2` on a `u8`
is `(d <<< 2) % 256`. -/
def encode_loop : Nat → Nat → List Nat
  | _, 0 => []
  | d, n + 1 => patternOf d :: encode_loop ((d <<< 2) % 256) n

/-- The four SPI bytes `write_byte data` emits for one channel byte
(`data` is a `u8`, hence reduced `% 256`). -/
def encode_byte (data : Nat) : List Nat := encode_loop (data % 256) 4

/-- Inverse of the pattern lookup: the 2-bit group a table entry encodes. -/
def pattern_bits (p : Nat) : Nat :=
  if p = 0b10001000 then 0
  else if p = 0b10001110 then 1
  else if p = 0b11101000 then 2
  else 3

/-- Recover a channel byte from its four-pattern encoding. -/
def decode_byte (l : List Nat) : Nat := l.foldl (fun a p => a * 4 + pattern_bits p) 0

/-! ### The streaming driver (`lib.rs`)

The transport is modelled by the trace of bytes handed to `spi.write`;
each `spi.write(from_ref(&x))` call appends the single byte `x`. -/

/-- One `spi.write(from_ref(&b))` call appending byte `b` to the trace. -/
def spi_send (sent : List Nat) (b : Nat) : List Nat := sent ++ [b]

/-- The `for _ in 0..4` send loop of `lib.rs::write_byte`, acting on the trace. -/
def lib_write_byte_loop : Nat → Nat → List Nat → List Nat
  | _, 0, sent => sent
  | d, n + 1, sent => lib_write_byte_loop ((d <<< 2) % 256) n (spi_send sent (patternOf d))

/-- `lib.rs::write_byte`: four pattern bytes sent one at a time. -/
def lib_write_byte (sent : List Nat) (data : Nat) : List Nat :=
  lib_write_byte_loop (data % 256) 4 sent

/-- `for _ in 0..140 { self.spi.write(from_ref(&0))?; }` — the send loop of
`lib.rs::reset`, generalised over the loop count. -/
def send_n_zeros : Nat → List Nat → List Nat
  | 0, sent => sent
  | n + 1, sent => send_n_zeros n (spi_send sent 0)

/-- `lib.rs::reset`: 140 zero bytes sent one at a time. -/
def lib_reset (sent : List Nat) : List Nat := send_n_zeros 140 sent

/-- The body of the `for item in iterator` loop of
`SmartLedsWrite::write for Ws2812` (`lib.rs`), with the default `GRB`
pixel order: `write_byte(ordered[0]); write_byte(ordered[1]); write_byte(ordered[2])`. -/
def lib_write_color (sent : List Nat) (c : RGB8) : List Nat :=
  let ordered := order_GRB c
  lib_write_byte (lib_write_byte (lib_write_byte sent (ordered.getD 0 0)) (ordered.getD 1 0))
    (ordered.getD 2 0)

/-- The `for item in iterator` loop of `SmartLedsWrite::write` (`lib.rs`). -/
def lib_write_colors : List Nat → List RGB8 → List Nat
  | sent, [] => sent
  | sent, c :: cs => lib_write_colors (lib_write_color sent c) cs

/-- `SmartLedsWrite::write for Ws2812<_, devices::Ws2812, GRB>` (`lib.rs`):
optional `mosi_idle_high` pre-reset, the colour loop, then `reset`.
Returns the full trace of bytes sent on the bus. -/
def lib_write (mosi_idle_high : Bool) (colors : List RGB8) : List Nat :=
  let sent0 : List Nat := []
  let sent1 := if mosi_idle_high then lib_reset sent0 else sent0
  let sent2 := lib_write_colors sent1 colors
  lib_reset sent2

/-- The encoded payload of one colour under the default `GRB` order. -/
def lib_payload_color (c : RGB8) : List Nat := (order_GRB c).flatMap encode_byte

/-- The encoded payload of a colour sequence. -/
def lib_payload (colors : List RGB8) : List Nat := colors.flatMap lib_payload_color

/-! ### Characterisation lemmas for the streaming driver -/

theorem encode_loop_length (d n : Nat) : (encode_loop d n).length = n := by
  induction n generalizing d with
  | zero => rfl
  | succ n ih => simp [encode_loop, ih]

theorem encode_byte_length (d : Nat) : (encode_byte d).length = 4 :=
  encode_loop_length _ 4

theorem lib_write_byte_loop_eq (d n : Nat) (sent : List Nat) :
    lib_write_byte_loop d n sent = sent ++ encode_loop d n := by
  induction n generalizing d sent with
  | zero => simp [lib_write_byte_loop, encode_loop]
  | succ n ih => simp [lib_write_byte_loop, encode_loop, ih, spi_send]

theorem lib_write_byte_eq (sent : List Nat) (d : Nat) :
    lib_write_byte sent d = sent ++ encode_byte d :=
  lib_write_byte_loop_eq _ 4 sent

theorem send_n_zeros_eq (n : Nat) (sent : List Nat) :
    send_n_zeros n sent = sent ++ List.replicate n 0 := by
  induction n generalizing sent with
  | zero => simp [send_n_zeros]
  | succ n ih =>
      simp [send_n_zeros, ih, spi_send]
      simp [List.replicate_succ]

theorem lib_reset_eq (sent : List Nat) : lib_reset sent = sent ++ List.replicate 140 0 :=
  send_n_zeros_eq 140 sent

theorem lib_write_color_eq (sent : List Nat) (c : RGB8) :
    lib_write_color sent c = sent ++ lib_payload_color c := by
  simp [lib_write_color, lib_write_byte_eq, lib_payload_color, order_GRB]

theorem lib_write_colors_eq (sent : List Nat) (cs : List RGB8) :
    lib_write_colors sent cs = sent ++ lib_payload cs := by
  induction cs generalizing sent with
  | nil => simp [lib_write_colors, lib_payload]
  | cons c cs ih =>
      simp [lib_write_colors, ih, lib_write_color_eq, lib_payload]

theorem lib_write_eq (mosi : Bool) (cs : List RGB8) :
    lib_write mosi cs =
      (if mosi then List.replicate 140 0 else []) ++ lib_payload cs ++ List.replicate 140 0 := by
  cases mosi <;>
    simp [lib_write, lib_reset_eq, lib_write_colors_eq]

/-! ### The halfduplex streaming driver (`halfduplex.rs`)

```rust
block!(self.spi.send(0))?;            // fifo-offset dummy byte
if cfg!(feature = "mosi_idle_high") { self.flush()?; }
for item in iterator {
    self.write_byte(item.g)?; self.write_byte(item.r)?; self.write_byte(item.b)?;
}
self.flush()?;
```
`write_byte` here sends one SPI byte per logical bit (8 sends per channel
byte), and the driver never calls `spi.read`. -/

/-- The `match data & 0x80` pattern selection of `halfduplex.rs::write_byte`.
The argument is the already-masked value `data & 0x80`. -/
def hd_pattern (masked : Nat) : Nat :=
  if masked = 0x80 then 0b11101110
  else if masked = 0 then 0b11101100
  else 0b11111111

/-- The `for _ in 0..8` send loop of `halfduplex.rs::write_byte`;
`data = data << 1` on a `u8` is `(d <<< 1) % 256`. -/
def hd_write_byte_loop : Nat → Nat → List Nat → List Nat
  | _, 0, sent => sent
  | d, n + 1, sent =>
      hd_write_byte_loop ((d <<< 1) % 256) n (spi_send sent (hd_pattern (d &&& 0x80)))

/-- The `halfduplex.rs` variant of `write_byte`: eight pattern bytes, one per
logical bit. -/
def hd_write_byte (sent : List Nat) (data : Nat) : List Nat :=
  hd_write_byte_loop (data % 256) 8 sent

/-- The `halfduplex.rs` function `flush`: 140 zero bytes sent one at a time. -/
def hd_flush (sent : List Nat) : List Nat := send_n_zeros 140 sent

/-- The body of the colour loop of `halfduplex.rs`: channels hard-coded in
`g`, `r`, `b` order. -/
def hd_write_color (sent : List Nat) (c : RGB8) : List Nat :=
  hd_write_byte (hd_write_byte (hd_write_byte sent c.g) c.r) c.b

/-- The `for item in iterator` loop of `halfduplex.rs`. -/
def hd_write_colors : List Nat → List RGB8 → List Nat
  | sent, [] => sent
  | sent, c :: cs => hd_write_colors (hd_write_color sent c) cs

/-- `SmartLedsWrite::write for Ws2812` (`halfduplex.rs`): the dummy byte,
the optional `mosi_idle_high` flush, the colour loop, the final flush. -/
def hd_write (mosi_idle_high : Bool) (colors : List RGB8) : List Nat :=
  let sent0 := spi_send [] 0
  let sent1 := if mosi_idle_high then hd_flush sent0 else sent0
  let sent2 := hd_write_colors sent1 colors
  hd_flush sent2

/-- The eight bytes the `halfduplex.rs` variant of `write_byte` emits for one
channel byte. -/
def hd_encode_loop : Nat → Nat → List Nat
  | _, 0 => []
  | d, n + 1 => hd_pattern (d &&& 0x80) :: hd_encode_loop ((d <<< 1) % 256) n

/-- Pure form of the halfduplex per-byte encoding. -/
def hd_encode_byte (data : Nat) : List Nat := hd_encode_loop (data % 256) 8

/-- Halfduplex payload of a colour sequence (`g`, `r`, `b` per colour). -/
def hd_payload (colors : List RGB8) : List Nat :=
  colors.flatMap fun c => hd_encode_byte c.g ++ hd_encode_byte c.r ++ hd_encode_byte c.b

theorem hd_encode_loop_length (d n : Nat) : (hd_encode_loop d n).length = n := by
  induction n generalizing d with
  | zero => rfl
  | succ n ih => simp [hd_encode_loop, ih]

theorem hd_write_byte_loop_eq (d n : Nat) (sent : List Nat) :
    hd_write_byte_loop d n sent = sent ++ hd_encode_loop d n := by
  induction n generalizing d sent with
  | zero => simp [hd_write_byte_loop, hd_encode_loop]
  | succ n ih => simp [hd_write_byte_loop, hd_encode_loop, ih, spi_send]

theorem hd_write_byte_eq (sent : List Nat) (d : Nat) :
    hd_write_byte sent d = sent ++ hd_encode_byte d :=
  hd_write_byte_loop_eq _ 8 sent

theorem hd_write_colors_eq (sent : List Nat) (cs : List RGB8) :
    hd_write_colors sent cs = sent ++ hd_payload cs := by
  induction cs generalizing sent with
  | nil => simp [hd_write_colors, hd_payload]
  | cons c cs ih =>
      simp [hd_write_colors, ih, hd_write_color, hd_write_byte_eq, hd_payload]

theorem hd_write_eq (mosi : Bool) (cs : List RGB8) :
    hd_write mosi cs =
      0 :: ((if mosi then List.replicate 140 0 else []) ++ hd_payload cs
        ++ List.replicate 140 0) := by
  cases mosi <;>
    simp [hd_write, hd_flush, send_n_zeros_eq, hd_write_colors_eq, spi_send]

/-! ### Claims C1 and C6 -/

/-- C1: for every 8-bit channel value, `write_byte` emits exactly 4 SPI
bytes, obtained by mapping the four 2-bit groups of the input byte,
most-significant first, through the lookup table
`[0b1000_1000, 0b1000_1110, 0b1110_1000, 0b1110_1110]`; the four lookups
fully encode the input byte (the output determines the input). -/
theorem claim1_fixed_table_encoding (d : Nat) (hd : d < 256) :
    lib_write_byte [] d =
      [patterns.getD (d / 64) 0, patterns.getD (d / 16 % 4) 0,
       patterns.getD (d / 4 % 4) 0, patterns.getD (d % 4) 0] ∧
    (lib_write_byte [] d).length = 4 ∧
    decode_byte (lib_write_byte [] d) = d := by
  revert d
  decide

/-- Witness for C1 at the concrete channel byte `0xB4`. -/
theorem claim1_fixed_table_encoding_witness :
    lib_write_byte [] 0xB4 =
      [patterns.getD (0xB4 / 64) 0, patterns.getD (0xB4 / 16 % 4) 0,
       patterns.getD (0xB4 / 4 % 4) 0, patterns.getD (0xB4 % 4) 0] ∧
    (lib_write_byte [] 0xB4).length = 4 ∧
    decode_byte (lib_write_byte [] 0xB4) = 0xB4 :=
  claim1_fixed_table_encoding 0xB4 (by decide)

/-- C2 counterexample: for the concrete three-pixel frame
`(0x11,0x22,0x33), (0x00,0x00,0x00), (0xFF,0xFF,0xFF)` the claimed total of
`1 (dummy) + 3*3*4 + 140 + 1 (drain read) = 178` bytes matches neither
streaming driver: `lib.rs` exchanges `3*3*4 + 140 = 176` bytes (it sends no
dummy byte and performs no drain read), and `halfduplex.rs` sends
`1 + 3*3*8 + 140 = 213` bytes (a dummy byte but eight bytes per channel,
and no read at all). -/
theorem claim2_counterexample :
    (lib_write false [⟨0x11, 0x22, 0x33⟩, ⟨0, 0, 0⟩, ⟨0xFF, 0xFF, 0xFF⟩]).length ≠
        1 + 3 * 3 * 4 + 140 + 1 ∧
    (hd_write false [⟨0x11, 0x22, 0x33⟩, ⟨0, 0, 0⟩, ⟨0xFF, 0xFF, 0xFF⟩]).length ≠
        1 + 3 * 3 * 4 + 140 + 1 := by
  constructor <;> decide

/-- C2 (amended): for a write of three ThreeChannel pixels with the fixed
4x-oversampling table and the streaming strategy of `lib.rs`, the total
number of bytes exchanged with the transport is
`3 pixels * 3 channels * 4 oversampled bytes + 140 post-latch reset bytes
= 176` — there is no fifo-offset dummy byte and no final drain read — and
the first 12 payload bytes equal the lookup-table encoding of the
`(g, r, b)` channel bytes of the first pixel's colour.  (The `halfduplex.rs`
streaming variant does send one dummy byte first, but encodes each channel
byte as 8 SPI bytes and performs no drain read, for a total of
`1 + 3 * 3 * 8 + 140 = 213` bytes.) -/
theorem claim2_streaming_frame_size (c1 c2 c3 : RGB8) :
    (lib_write false [c1, c2, c3]).length = 3 * 3 * 4 + 140 ∧
    (lib_write false [c1, c2, c3]).take 12 =
      encode_byte c1.g ++ encode_byte c1.r ++ encode_byte c1.b ∧
    (hd_write false [c1, c2, c3]).length = 1 + 3 * 3 * 8 + 140 := by
  refine ⟨?_, ?_, ?_⟩
  · simp [lib_write_eq, lib_payload, lib_payload_color, order_GRB, encode_byte_length]
  · have h12 : (lib_payload_color c1).length = 12 := by
      simp [lib_payload_color, order_GRB, encode_byte_length]
    have : lib_write false [c1, c2, c3] =
        lib_payload_color c1 ++
          (lib_payload_color c2 ++ lib_payload_color c3 ++ List.replicate 140 0) := by
      simp [lib_write_eq, lib_payload]
    rw [this, List.take_append_eq_append_take, h12]
    simp [h12, lib_payload_color, order_GRB, encode_byte_length]
  · simp [hd_write_eq, hd_payload, hd_encode_byte, hd_encode_loop_length]

/-- C6: with the default pixel order `GRB` and a ThreeChannel device,
writing the single colour `r = 0x11, g = 0x22, b = 0x33` feeds the channel
bytes to the bit encoder in exactly the order `0x22, 0x11, 0x33`: the
ordered channels are `[0x22, 0x11, 0x33]` and the whole frame trace is the
encodings of `0x22`, `0x11`, `0x33` in that order followed by the reset. -/
theorem claim6_default_pixel_order :
    order_GRB ⟨0x11, 0x22, 0x33⟩ = [0x22, 0x11, 0x33] ∧
    lib_write false [⟨0x11, 0x22, 0x33⟩] =
      encode_byte 0x22 ++ encode_byte 0x11 ++ encode_byte 0x33 ++ List.replicate 140 0 := by
  constructor
  · rfl
  · decide

/-! ### Sub-bit view of the encodings, and the spec's TimingModel

The repository's `src/` tree contains only the fixed 4x table; the
TimingModel and the variable-oversampling BitEncoder of spec §4.1/§4.2 have
no source here, so they are modelled from the spec. -/

/-- The eight bits of a byte, most significant first. -/
def byteBits (d : Nat) : List Bool :=
  [d.testBit 7, d.testBit 6, d.testBit 5, d.testBit 4,
   d.testBit 3, d.testBit 2, d.testBit 1, d.testBit 0]

/-- Total count of high ('1') sub-bits in a sequence of SPI bytes. -/
def highCount (bytes : List Nat) : Nat := (bytes.flatMap byteBits).count true

/-- Modelled from the spec: the derived record of §3.  `resetBytes` is left
out because no claim constrains it and the spec gives no formula for it. -/
structure TimingParameters where
  zero_high : Nat
  one_high : Nat
  total : Nat
  deriving DecidableEq, Repr

/-- Modelled from the spec: the variable BitEncoder path of §4.2 — for one
logical bit, emit `one_high` or `zero_high` high sub-bits followed by
`total - high` low sub-bits. -/
def encode_bit_var (tp : TimingParameters) (b : Bool) : List Bool :=
  let high := if b then tp.one_high else tp.zero_high
  List.replicate high true ++ List.replicate (tp.total - high) false

/-- Modelled from the spec: the variable-path sub-bit sequence of one input
byte, its 8 bits taken most significant first. -/
def encode_byte_var (tp : TimingParameters) (d : Nat) : List Bool :=
  (byteBits d).flatMap (encode_bit_var tp)

/-- Modelled from the spec: the TimingModel algorithm of §4.1.  The three
protocol frequency thresholds and the minimum supported clock are
parameters, since the spec names but does not fix their values; `none`
models failing with `InvalidTiming`. -/
def mkTimingParameters (zeroHighThreshold oneHighThreshold bitPeriodThreshold
    minClock clock : Nat) : Option TimingParameters :=
  if clock < minClock then none
  else
    let zh := max 1 (clock / zeroHighThreshold)
    let oh := clock / oneHighThreshold + 1
    let t := clock / bitPeriodThreshold + 1
    let tot := if t = oh then t + 1 else t
    if 28 < tot then none else some ⟨zh, oh, tot⟩

theorem count_true_encode_bit_var (tp : TimingParameters) (b : Bool) :
    (encode_bit_var tp b).count true = if b then tp.one_high else tp.zero_high := by
  cases b <;> simp [encode_bit_var, List.count_append, List.count_replicate]

theorem count_true_flatMap_replicate (tp : TimingParameters) (n : Nat) (b : Bool) :
    ((List.replicate n b).flatMap (encode_bit_var tp)).count true =
      n * (if b then tp.one_high else tp.zero_high) := by
  induction n with
  | zero => simp
  | succ n ih =>
      rw [List.replicate_succ, List.flatMap_cons, List.count_append, ih,
        count_true_encode_bit_var, Nat.succ_mul, Nat.add_comm]

/-! ### Claims C7 and C3 -/

/-- C7: under the fixed 4x table, byte `0xFF` encodes to a sub-bit sequence
with `8 * 3` high sub-bits and byte `0x00` to one with `8 * 1` high sub-bits
(3 and 1 being the table's per-logical-bit high counts), and in the
spec-modelled variable path every `TimingParameters` gives `8 * one_high`
high sub-bits for `0xFF` and `8 * zero_high` for `0x00`. -/
theorem claim7_high_phase_totals :
    highCount (encode_byte 0xFF) = 8 * 3 ∧
    highCount (encode_byte 0x00) = 8 * 1 ∧
    ∀ tp : TimingParameters,
      (encode_byte_var tp 0xFF).count true = 8 * tp.one_high ∧
      (encode_byte_var tp 0x00).count true = 8 * tp.zero_high := by
  refine ⟨by decide, by decide, fun tp => ⟨?_, ?_⟩⟩
  · have h : byteBits 0xFF = List.replicate 8 true := by decide
    rw [encode_byte_var, h, count_true_flatMap_replicate]
    simp
  · have h : byteBits 0x00 = List.replicate 8 false := by decide
    rw [encode_byte_var, h, count_true_flatMap_replicate]
    simp

/-- C3: for every supported bus clock frequency (one on which construction
succeeds), the computed `TimingParameters` satisfy
`1 ≤ zero_high ≤ one_high < total ≤ 28`, where the thresholds are ordered
as the protocol durations dictate (`bitPeriod ≤ oneHigh ≤ zeroHigh` as
frequencies, all positive). -/
theorem claim3_timing_invariants
    (zht oht bpt minClock clock : Nat) (tp : TimingParameters)
    (hbpt : 0 < bpt) (hob : bpt ≤ oht) (hzo : oht ≤ zht)
    (heq : mkTimingParameters zht oht bpt minClock clock = some tp) :
    1 ≤ tp.zero_high ∧ tp.zero_high ≤ tp.one_high ∧
      tp.one_high < tp.total ∧ tp.total ≤ 28 := by
  have hoht : 0 < oht := Nat.lt_of_lt_of_le hbpt hob
  have hzo' : clock / zht ≤ clock / oht := Nat.div_le_div_left hzo hoht
  have hob' : clock / oht ≤ clock / bpt := Nat.div_le_div_left hob hbpt
  have hmax1 : 1 ≤ max 1 (clock / zht) := le_max_left 1 _
  have hmax2 : max 1 (clock / zht) ≤ clock / oht + 1 :=
    max_le (Nat.succ_le_succ (Nat.zero_le _)) (Nat.le_succ_of_le hzo')
  simp only [mkTimingParameters] at heq
  split at heq
  · exact absurd heq (by simp)
  · split at heq
    · split at heq
      · exact absurd heq (by simp)
      · injection heq with heq
        subst heq
        refine ⟨hmax1, hmax2, ?_, ?_⟩ <;> dsimp only <;> omega
    · split at heq
      · exact absurd heq (by simp)
      · injection heq with heq
        subst heq
        refine ⟨hmax1, hmax2, ?_, ?_⟩ <;> dsimp only <;> omega

/-- Witness for C3: with all thresholds 1, minimum clock 0 and clock 5 the
model yields `TimingParameters` `⟨5, 6, 7⟩`, which satisfy the invariant
chain. -/
theorem claim3_timing_invariants_witness :
    1 ≤ (⟨5, 6, 7⟩ : TimingParameters).zero_high ∧
      (⟨5, 6, 7⟩ : TimingParameters).zero_high ≤ (⟨5, 6, 7⟩ : TimingParameters).one_high ∧
      (⟨5, 6, 7⟩ : TimingParameters).one_high < (⟨5, 6, 7⟩ : TimingParameters).total ∧
      (⟨5, 6, 7⟩ : TimingParameters).total ≤ 28 :=
  claim3_timing_invariants 1 1 1 0 5 ⟨5, 6, 7⟩ (by decide) (by decide) (by decide) (by decide)

/-! ### The prerendered driver (`prerendered.rs`)

The driver owns a caller-supplied buffer `data: &mut [u8]` and a cursor
`index: usize`.  `write_byte` guards with
`if self.index > self.data.len() - 4 { return Err(Error::OutOfBounds); }` —
`usize` subtraction, which wraps in a release build (a debug build would
already panic on the underflow) — and then performs four
`self.data[self.index] = ...; self.index += 1;` stores.  A slice store with
an out-of-range index panics; `POut.panicked` models any such panic. -/

/-- The range of `usize`. -/
def USIZE : Nat := 2 ^ 64

/-- Wrapping `usize` subtraction, the release-build semantics of
`self.data.len() - 4`. -/
def sub_usize (a b : Nat) : Nat := (a + USIZE - b) % USIZE

/-- Outcome of a prerendered-driver operation: success, the `OutOfBounds`
error, or a Rust panic. -/
inductive POut (α : Type) where
  | ok : α → POut α
  | outOfBounds : POut α
  | panicked : POut α
  deriving DecidableEq, Repr

/-- Short-circuiting sequencing of prerendered operations (Rust `?`). -/
def POut.bind {α β : Type} : POut α → (α → POut β) → POut β
  | .ok a, f => f a
  | .outOfBounds, _ => .outOfBounds
  | .panicked, _ => .panicked

theorem POut.bind_ok {α β : Type} (a : α) (f : α → POut β) :
    POut.bind (.ok a) f = f a := rfl

theorem POut.bind_oob {α β : Type} (f : α → POut β) :
    POut.bind (.outOfBounds : POut α) f = .outOfBounds := rfl

/-- The mutable driver state of `prerendered.rs`: the buffer and the cursor. -/
structure PreState where
  data : List Nat
  index : Nat
  deriving DecidableEq, Repr

/-- One bounds-checked slice store `data[i] = v`; `none` is the Rust panic
on an out-of-range index. -/
def store (l : List Nat) (i : Nat) (v : Nat) : Option (List Nat) :=
  if i < l.length then some (l.set i v) else none

/-- A run of `self.data[self.index] = v; self.index += 1;` statements, one
per element of `vs` — the loop bodies of `write_byte` and `write_reset`. -/
def storeList : PreState → List Nat → POut PreState
  | st, [] => .ok st
  | st, v :: vs =>
      match store st.data st.index v with
      | some d => storeList ⟨d, st.index + 1⟩ vs
      | none => .panicked

/-- `RESET_DATA_LEN` from `prerendered.rs`. -/
def RESET_DATA_LEN : Nat := 140

/-- The `prerendered.rs` variant of `write_byte`: the wrapped-subtraction
guard, then the four pattern stores (the loop computes exactly the four
bytes `encode_byte data`, the same pattern lookup as `lib.rs`). -/
def pre_write_byte (st : PreState) (data : Nat) : POut PreState :=
  if st.index > sub_usize st.data.length 4 then .outOfBounds
  else storeList st (encode_byte data)

/-- `prerendered.rs::write_reset`: guard `index + RESET_DATA_LEN > len`,
then 140 zero stores. -/
def pre_write_reset (st : PreState) : POut PreState :=
  if st.index + RESET_DATA_LEN > st.data.length then .outOfBounds
  else storeList st (List.replicate RESET_DATA_LEN 0)

/-- The loop body of `SmartLedsWrite::write` (`prerendered.rs`) for one
colour, default `GRB` pixel order. -/
def pre_write_color (st : PreState) (c : RGB8) : POut PreState :=
  POut.bind (pre_write_byte st ((order_GRB c).getD 0 0)) fun st1 =>
  POut.bind (pre_write_byte st1 ((order_GRB c).getD 1 0)) fun st2 =>
  pre_write_byte st2 ((order_GRB c).getD 2 0)

/-- The `for item in iterator` loop of `SmartLedsWrite::write`
(`prerendered.rs`). -/
def pre_write_colors : PreState → List RGB8 → POut PreState
  | st, [] => .ok st
  | st, c :: cs => POut.bind (pre_write_color st c) fun st1 => pre_write_colors st1 cs

/-- `SmartLedsWrite::write for Ws2812` (`prerendered.rs`), default `GRB`
order: `self.index = 0`, optional `mosi_idle_high` reset into the buffer,
the colour loop, optional `reset_single_transaction` reset into the buffer,
`send_data` (one bulk transfer of `data[..index]`), then — without
`reset_single_transaction` — `send_reset` (140 single-byte transfers).
Returns the final state together with the trace of bytes handed to the
(error-free mock) transport. -/
def pre_write (mosi_idle_high reset_single_transaction : Bool) (st0 : PreState)
    (colors : List RGB8) : POut (PreState × List Nat) :=
  let st : PreState := { st0 with index := 0 }
  POut.bind (if mosi_idle_high then pre_write_reset st else .ok st) fun st1 =>
  POut.bind (pre_write_colors st1 colors) fun st2 =>
  POut.bind (if reset_single_transaction then pre_write_reset st2 else .ok st2) fun st3 =>
  let sent := st3.data.take st3.index
  .ok (st3, if reset_single_transaction then sent else send_n_zeros 140 sent)

/-- Buffer bytes a `pre_write` call needs: 140 per enabled reset feature
plus 12 per pixel. -/
def pre_needed (mosi_idle_high reset_single_transaction : Bool)
    (colors : List RGB8) : Nat :=
  (if mosi_idle_high then 140 else 0) + 12 * colors.length +
    (if reset_single_transaction then 140 else 0)

/-- Overwriting `vs` into `l` starting at position `i` — the result of a
successful `storeList`. -/
def splice (l : List Nat) (i : Nat) (vs : List Nat) : List Nat :=
  l.take i ++ vs ++ l.drop (i + vs.length)

/-! ### Store-loop characterisation -/

theorem splice_length {l : List Nat} {i : Nat} {vs : List Nat}
    (h : i + vs.length ≤ l.length) : (splice l i vs).length = l.length := by
  simp [splice]
  omega

theorem storeList_ok (vs : List Nat) (st : PreState)
    (h : st.index + vs.length ≤ st.data.length) :
    storeList st vs = .ok ⟨splice st.data st.index vs, st.index + vs.length⟩ := by
  induction vs generalizing st with
  | nil =>
      simp [storeList, splice]
  | cons v vs ih =>
      have hi : st.index < st.data.length := by
        simp at h
        omega
      rw [storeList, store, if_pos hi]
      dsimp only
      rw [ih ⟨st.data.set st.index v, st.index + 1⟩ (by simp; simp at h; omega)]
      have hset : st.data.set st.index v =
          st.data.take st.index ++ v :: st.data.drop (st.index + 1) :=
        List.set_eq_take_cons_drop v hi
      have htk : (st.data.set st.index v).take (st.index + 1) =
          st.data.take st.index ++ [v] := by
        rw [hset, List.take_append_eq_append_take]
        have hlen : (st.data.take st.index).length = st.index := by
          simp
          omega
        rw [List.take_of_length_le (by omega), hlen]
        simp
      have hdr : ∀ n, st.index < n → (st.data.set st.index v).drop n = st.data.drop n :=
        fun n hn => List.drop_set_of_lt v st.data hn
      simp only [splice, htk, hdr (st.index + 1 + vs.length) (by omega)]
      have : st.index + 1 + vs.length = st.index + (vs.length + 1) := by omega
      rw [this]
      simp

theorem storeList_panicked (vs : List Nat) (st : PreState)
    (h : st.data.length < st.index + vs.length) (hne : vs ≠ []) :
    storeList st vs = .panicked := by
  induction vs generalizing st with
  | nil => exact absurd rfl hne
  | cons v vs ih =>
      rw [storeList, store]
      by_cases hi : st.index < st.data.length
      · rw [if_pos hi]
        cases vs with
        | nil =>
            simp at h
            omega
        | cons w ws =>
            exact ih ⟨st.data.set st.index v, st.index + 1⟩
              (by simp; simp at h; omega) (by simp)
      · rw [if_neg hi]

/-! ### Specifications of the prerendered operations -/

theorem sub_usize_eq {a : Nat} (h4 : 4 ≤ a) (ha : a < USIZE) :
    sub_usize a 4 = a - 4 := by
  unfold sub_usize
  have : a + USIZE - 4 = (a - 4) + USIZE := by omega
  rw [this, Nat.add_mod_right, Nat.mod_eq_of_lt (by omega)]

theorem pre_write_byte_spec (st : PreState) (d : Nat)
    (h4 : 4 ≤ st.data.length) (hL : st.data.length < USIZE) :
    pre_write_byte st d =
      if st.index + 4 ≤ st.data.length then
        .ok ⟨splice st.data st.index (encode_byte d), st.index + 4⟩
      else .outOfBounds := by
  unfold pre_write_byte
  rw [sub_usize_eq h4 hL]
  by_cases h : st.index + 4 ≤ st.data.length
  · rw [if_neg (by omega), if_pos h]
    have := storeList_ok (encode_byte d) st (by rw [encode_byte_length]; omega)
    rw [this, encode_byte_length]
  · rw [if_pos (by omega), if_neg h]

theorem pre_write_reset_spec (st : PreState) :
    pre_write_reset st =
      if st.index + 140 ≤ st.data.length then
        .ok ⟨splice st.data st.index (List.replicate 140 0), st.index + 140⟩
      else .outOfBounds := by
  unfold pre_write_reset RESET_DATA_LEN
  by_cases h : st.index + 140 ≤ st.data.length
  · rw [if_neg (by omega), if_pos h]
    have := storeList_ok (List.replicate 140 0) st (by simp; omega)
    rw [this]
    simp
  · rw [if_pos (by omega), if_neg h]

theorem lib_payload_color_length (c : RGB8) : (lib_payload_color c).length = 12 := by
  simp [lib_payload_color, order_GRB, encode_byte_length]

theorem lib_payload_length (cs : List RGB8) : (lib_payload cs).length = 12 * cs.length := by
  induction cs with
  | nil => simp [lib_payload]
  | cons c cs ih =>
      simp [lib_payload] at ih ⊢
      rw [lib_payload_color_length, ih]
      ring

theorem splice_append (l : List Nat) (i : Nat) (vs ws : List Nat)
    (h : i + vs.length ≤ l.length) :
    splice (splice l i vs) (i + vs.length) ws = splice l i (vs ++ ws) := by
  have hi : i ≤ l.length := by omega
  have hA : (l.take i).length = i := by simp; omega
  unfold splice
  have h1 : (l.take i ++ (vs ++ l.drop (i + vs.length))).take (i + vs.length) =
      l.take i ++ vs := by
    rw [List.take_append_eq_append_take, List.take_of_length_le (by omega), hA,
      Nat.add_sub_cancel_left, List.take_append_eq_append_take, List.take_length,
      Nat.sub_self, List.take_zero, List.append_nil]
  have h2 : (l.take i ++ (vs ++ l.drop (i + vs.length))).drop (i + vs.length + ws.length) =
      l.drop (i + (vs ++ ws).length) := by
    rw [List.drop_append_eq_append_drop, List.drop_eq_nil_of_le (by omega), hA,
      List.drop_append_eq_append_drop, List.drop_eq_nil_of_le (by omega),
      List.drop_drop, List.nil_append, List.nil_append]
    congr 1
    simp
    omega
  rw [List.append_assoc (l.take i) vs (l.drop (i + vs.length)), h1, h2]
  simp [List.append_assoc]

theorem splice_nil (l : List Nat) (i : Nat) : splice l i [] = l := by
  simp [splice]


theorem splice_take (l : List Nat) (i : Nat) (vs : List Nat)
    (h : i + vs.length ≤ l.length) :
    (splice l i vs).take (i + vs.length) = l.take i ++ vs := by
  have hA : (l.take i).length = i := by rw [List.length_take]; omega
  have hAv : (l.take i ++ vs).length = i + vs.length := by rw [List.length_append, hA]
  unfold splice
  rw [List.take_append_eq_append_take, List.take_of_length_le (le_of_eq hAv), hAv,
    Nat.sub_self, List.take_zero, List.append_nil]

theorem pre_write_color_spec (st : PreState) (c : RGB8)
    (h4 : 4 ≤ st.data.length) (hL : st.data.length < USIZE) :
    pre_write_color st c =
      if st.index + 12 ≤ st.data.length then
        .ok ⟨splice st.data st.index (lib_payload_color c), st.index + 12⟩
      else .outOfBounds := by
  have hg : (order_GRB c).getD 0 0 = c.g := rfl
  have hr : (order_GRB c).getD 1 0 = c.r := rfl
  have hb : (order_GRB c).getD 2 0 = c.b := rfl
  have hpl : lib_payload_color c =
      encode_byte c.g ++ encode_byte c.r ++ encode_byte c.b := by
    simp [lib_payload_color, order_GRB]
  unfold pre_write_color
  rw [hg, hr, hb]
  by_cases h12 : st.index + 12 ≤ st.data.length
  · have hlen1 : (splice st.data st.index (encode_byte c.g)).length = st.data.length :=
      splice_length (by rw [encode_byte_length]; omega)
    have ha : st.index + 4 ≤ st.data.length := by omega
    have h41 : 4 ≤ (splice st.data st.index (encode_byte c.g)).length := by rw [hlen1]; omega
    have hL1 : (splice st.data st.index (encode_byte c.g)).length < USIZE := by rw [hlen1]; omega
    have hb1 : st.index + 4 + 4 ≤ (splice st.data st.index (encode_byte c.g)).length := by
      rw [hlen1]; omega
    have hs1 : splice (splice st.data st.index (encode_byte c.g)) (st.index + 4)
        (encode_byte c.r) = splice st.data st.index (encode_byte c.g ++ encode_byte c.r) := by
      have h := splice_append st.data st.index (encode_byte c.g) (encode_byte c.r)
        (by rw [encode_byte_length]; omega)
      rw [encode_byte_length] at h
      exact h
    have hlen2 : (splice st.data st.index (encode_byte c.g ++ encode_byte c.r)).length =
        st.data.length :=
      splice_length (by simp [encode_byte_length]; omega)
    have h42 : 4 ≤ (splice st.data st.index (encode_byte c.g ++ encode_byte c.r)).length := by
      rw [hlen2]; omega
    have hL2 : (splice st.data st.index (encode_byte c.g ++ encode_byte c.r)).length <
        USIZE := by rw [hlen2]; omega
    have hb2 : st.index + 4 + 4 + 4 ≤
        (splice st.data st.index (encode_byte c.g ++ encode_byte c.r)).length := by
      rw [hlen2]; omega
    have hs2 : splice (splice st.data st.index (encode_byte c.g ++ encode_byte c.r))
        (st.index + 4 + 4) (encode_byte c.b) =
        splice st.data st.index (encode_byte c.g ++ encode_byte c.r ++ encode_byte c.b) := by
      have h := splice_append st.data st.index (encode_byte c.g ++ encode_byte c.r)
        (encode_byte c.b) (by simp [encode_byte_length]; omega)
      simp only [List.length_append, encode_byte_length] at h
      have e : st.index + (4 + 4) = st.index + 4 + 4 := by omega
      rw [e] at h
      exact h
    rw [if_pos h12]
    rw [pre_write_byte_spec st c.g h4 hL, if_pos ha, POut.bind_ok]
    rw [pre_write_byte_spec ⟨splice st.data st.index (encode_byte c.g), st.index + 4⟩ c.r
      h41 hL1]
    rw [if_pos hb1, POut.bind_ok]
    dsimp only
    rw [hs1]
    rw [pre_write_byte_spec ⟨splice st.data st.index (encode_byte c.g ++ encode_byte c.r),
      st.index + 4 + 4⟩ c.b h42 hL2]
    rw [if_pos hb2]
    dsimp only
    rw [hs2, hpl]
  · rw [if_neg h12]
    by_cases ha : st.index + 4 ≤ st.data.length
    · have hlen1 : (splice st.data st.index (encode_byte c.g)).length = st.data.length :=
        splice_length (by rw [encode_byte_length]; omega)
      have h41 : 4 ≤ (splice st.data st.index (encode_byte c.g)).length := by
        rw [hlen1]; omega
      have hL1 : (splice st.data st.index (encode_byte c.g)).length < USIZE := by
        rw [hlen1]; omega
      rw [pre_write_byte_spec st c.g h4 hL, if_pos ha, POut.bind_ok]
      rw [pre_write_byte_spec ⟨splice st.data st.index (encode_byte c.g), st.index + 4⟩ c.r
        h41 hL1]
      by_cases hb8 : st.index + 4 + 4 ≤ st.data.length
      · have hb1 : st.index + 4 + 4 ≤ (splice st.data st.index (encode_byte c.g)).length := by
          rw [hlen1]; omega
        have hs1 : splice (splice st.data st.index (encode_byte c.g)) (st.index + 4)
            (encode_byte c.r) =
            splice st.data st.index (encode_byte c.g ++ encode_byte c.r) := by
          have h := splice_append st.data st.index (encode_byte c.g) (encode_byte c.r)
            (by rw [encode_byte_length]; omega)
          rw [encode_byte_length] at h
          exact h
        have hlen2 : (splice st.data st.index
            (encode_byte c.g ++ encode_byte c.r)).length = st.data.length :=
          splice_length (by simp [encode_byte_length]; omega)
        rw [if_pos hb1, POut.bind_ok]
        dsimp only
        rw [hs1]
        rw [pre_write_byte_spec ⟨splice st.data st.index
          (encode_byte c.g ++ encode_byte c.r), st.index + 4 + 4⟩ c.b
          (by rw [hlen2]; omega) (by rw [hlen2]; omega)]
        have hno : ¬(st.index + 4 + 4 + 4 ≤
            (splice st.data st.index (encode_byte c.g ++ encode_byte c.r)).length) := by
          rw [hlen2]; omega
        rw [if_neg hno]
      · have hno : ¬(st.index + 4 + 4 ≤
            (splice st.data st.index (encode_byte c.g)).length) := by
          rw [hlen1]; omega
        rw [if_neg hno, POut.bind_oob]
    · rw [pre_write_byte_spec st c.g h4 hL, if_neg (by omega), POut.bind_oob]

theorem pre_write_colors_spec (cs : List RGB8) (st : PreState)
    (h4 : 4 ≤ st.data.length) (hL : st.data.length < USIZE)
    (hi : st.index ≤ st.data.length) :
    pre_write_colors st cs =
      if st.index + 12 * cs.length ≤ st.data.length then
        .ok ⟨splice st.data st.index (lib_payload cs), st.index + 12 * cs.length⟩
      else .outOfBounds := by
  induction cs generalizing st with
  | nil =>
      rw [pre_write_colors, if_pos (by simpa using hi)]
      simp [lib_payload, splice_nil]
  | cons c cs ih =>
      rw [pre_write_colors, pre_write_color_spec st c h4 hL]
      by_cases h12 : st.index + 12 ≤ st.data.length
      · have hlen : (splice st.data st.index (lib_payload_color c)).length =
            st.data.length :=
          splice_length (by rw [lib_payload_color_length]; omega)
        rw [if_pos h12, POut.bind_ok]
        rw [ih ⟨splice st.data st.index (lib_payload_color c), st.index + 12⟩
          (by show 4 ≤ (splice st.data st.index (lib_payload_color c)).length; rw [hlen]; omega)
          (by show (splice st.data st.index (lib_payload_color c)).length < USIZE; rw [hlen]; omega)
          (by show st.index + 12 ≤ (splice st.data st.index (lib_payload_color c)).length; rw [hlen]; omega)]
        dsimp only
        by_cases hall : st.index + 12 + 12 * cs.length ≤ st.data.length
        · rw [if_pos (by rw [hlen]; omega), if_pos (by simp; omega)]
          have hs : splice (splice st.data st.index (lib_payload_color c)) (st.index + 12)
              (lib_payload cs) = splice st.data st.index (lib_payload (c :: cs)) := by
            have h := splice_append st.data st.index (lib_payload_color c) (lib_payload cs)
              (by rw [lib_payload_color_length]; omega)
            rw [lib_payload_color_length] at h
            rw [h]
            congr 1
          have eidx : st.index + 12 + 12 * cs.length = st.index + 12 * (c :: cs).length := by
            simp only [List.length_cons]
            omega
          rw [hs, eidx]
        · rw [if_neg (by rw [hlen]; omega), if_neg (by simp; omega)]
      · rw [if_neg h12, POut.bind_oob, if_neg (by simp; omega)]

/-! ### Claims C4, C9 and C5 -/

/-- C4 (amended): for every write call whose buffer holds at least 4 bytes
(and has a representable `usize` length) and whose frame needs more bytes
than the buffer holds, the call returns the `OutOfBounds` error — it never
panics, and since every store in this model is bounds-checked (an
out-of-range store would be `POut.panicked`), the error is raised before
any write past the buffer's capacity.  Buffers shorter than 4 bytes are
excluded: there the guard's `usize` subtraction wraps and a non-empty
frame panics instead of returning `OutOfBounds` (see the counterexample). -/
theorem claim4_buffer_too_small (mosi rst : Bool) (l : List Nat) (i0 : Nat)
    (cs : List RGB8) (h4 : 4 ≤ l.length) (hL : l.length < USIZE)
    (hneed : l.length < pre_needed mosi rst cs) :
    pre_write mosi rst ⟨l, i0⟩ cs = .outOfBounds := by
  unfold pre_write
  dsimp only
  cases mosi with
  | false =>
    rw [if_neg (by simp), POut.bind_ok]
    rw [pre_write_colors_spec cs ⟨l, 0⟩ h4 hL (by show (0:Nat) ≤ l.length; omega)]
    by_cases hc : 12 * cs.length ≤ l.length
    · rw [if_pos (by show 0 + 12 * cs.length ≤ l.length; omega), POut.bind_ok]
      cases rst with
      | false => exact absurd hneed (by simp [pre_needed]; omega)
      | true =>
          have hlenp : (splice l 0 (lib_payload cs)).length = l.length :=
            splice_length (by rw [lib_payload_length]; omega)
          have hno : ¬(0 + 12 * cs.length + 140 ≤ (splice l 0 (lib_payload cs)).length) := by
            rw [hlenp]
            simp [pre_needed] at hneed
            omega
          rw [if_pos rfl]
          rw [pre_write_reset_spec ⟨splice l 0 (lib_payload cs), 0 + 12 * cs.length⟩]
          rw [if_neg hno, POut.bind_oob]
    · rw [if_neg (by show ¬(0 + 12 * cs.length ≤ l.length); omega), POut.bind_oob]
  | true =>
    rw [if_pos rfl]
    rw [pre_write_reset_spec ⟨l, 0⟩]
    by_cases hm : 140 ≤ l.length
    · rw [if_pos (by show (0:Nat) + 140 ≤ l.length; omega), POut.bind_ok]
      have hlen1 : (splice l 0 (List.replicate 140 0)).length = l.length :=
        splice_length (by simp; omega)
      rw [pre_write_colors_spec cs ⟨splice l 0 (List.replicate 140 0), 0 + 140⟩
        (by show 4 ≤ (splice l 0 (List.replicate 140 0)).length; rw [hlen1]; omega)
        (by show (splice l 0 (List.replicate 140 0)).length < USIZE; rw [hlen1]; omega)
        (by show 0 + 140 ≤ (splice l 0 (List.replicate 140 0)).length; rw [hlen1]; omega)]
      by_cases hc : 140 + 12 * cs.length ≤ l.length
      · have hfits : 0 + 140 + 12 * cs.length ≤
            (splice l 0 (List.replicate 140 0)).length := by
          rw [hlen1]
          omega
        rw [if_pos hfits, POut.bind_ok]
        cases rst with
        | false => exact absurd hneed (by simp [pre_needed]; omega)
        | true =>
            have hlen2 : (splice (splice l 0 (List.replicate 140 0)) (0 + 140)
                (lib_payload cs)).length = l.length := by
              rw [splice_length (by rw [lib_payload_length, hlen1]; omega), hlen1]
            have hno : ¬(0 + 140 + 12 * cs.length + 140 ≤
                (splice (splice l 0 (List.replicate 140 0)) (0 + 140)
                  (lib_payload cs)).length) := by
              rw [hlen2]
              simp [pre_needed] at hneed
              omega
            rw [if_pos rfl]
            rw [pre_write_reset_spec ⟨splice (splice l 0 (List.replicate 140 0)) (0 + 140)
              (lib_payload cs), 0 + 140 + 12 * cs.length⟩]
            rw [if_neg hno, POut.bind_oob]
      · have hno : ¬(0 + 140 + 12 * cs.length ≤
            (splice l 0 (List.replicate 140 0)).length) := by
          rw [hlen1]
          omega
        rw [if_neg hno, POut.bind_oob]
    · rw [if_neg (by show ¬((0:Nat) + 140 ≤ l.length); omega), POut.bind_oob]

/-- Witness for C4 (amended), which is also the spec's own test case: an
11-byte buffer — one byte short of the 12 bytes a one-pixel frame needs —
yields `OutOfBounds`. -/
theorem claim4_buffer_too_small_witness :
    pre_write false false ⟨List.replicate 11 0, 0⟩ [⟨1, 2, 3⟩] = .outOfBounds :=
  claim4_buffer_too_small false false (List.replicate 11 0) 0 [⟨1, 2, 3⟩]
    (by decide) (by decide) (by decide)

/-- C4 counterexample: the claim quantifies over every undersized buffer,
but with a 3-byte buffer (frame needs 12 > 3 bytes) the guard's `usize`
subtraction `3 - 4` wraps, the guard passes, and the write panics on the
out-of-range store instead of returning the `OutOfBounds` error. -/
theorem claim4_counterexample :
    pre_write false false ⟨[0, 0, 0], 0⟩ [⟨0, 0, 0⟩] = .panicked ∧
    pre_write false false ⟨[0, 0, 0], 0⟩ [⟨0, 0, 0⟩] ≠ .outOfBounds := by
  constructor
  · decide
  · decide

/-- C9 counterexample: on a 3-byte buffer the capacity comparison
underflows — `sub_usize 3 4` wraps to `2^64 - 1` instead of a meaningful
bound — so the guard passes and the call panics on the out-of-range store
at index 3 rather than returning `OutOfBounds`. -/
theorem claim9_counterexample :
    sub_usize 3 4 = USIZE - 1 ∧
    pre_write_byte ⟨[0, 0, 0], 0⟩ 0 = .panicked := by
  constructor
  · decide
  · decide

/-- C9 (amended): for every buffer of length at least 4 (and representable
as `usize`) and every cursor position, the claim holds: the capacity
comparison `index > len - 4` does not underflow (`sub_usize len 4` equals
the exact `len - 4`), the call never panics — equivalently, it performs
only in-bounds stores — and it returns `OutOfBounds` exactly when fewer
than 4 bytes remain, otherwise storing the four pattern bytes in bounds.
For buffers shorter than 4 bytes the subtraction underflows and the call
panics (see the counterexample), so the original claim's totality over
every buffer length fails. -/
theorem claim9_write_byte_guard (st : PreState) (d : Nat)
    (h4 : 4 ≤ st.data.length) (hL : st.data.length < USIZE) :
    sub_usize st.data.length 4 = st.data.length - 4 ∧
    pre_write_byte st d ≠ .panicked ∧
    (st.data.length < st.index + 4 → pre_write_byte st d = .outOfBounds) ∧
    (st.index + 4 ≤ st.data.length →
      pre_write_byte st d =
        .ok ⟨splice st.data st.index (encode_byte d), st.index + 4⟩) := by
  refine ⟨sub_usize_eq h4 hL, ?_, ?_, ?_⟩
  · rw [pre_write_byte_spec st d h4 hL]
    by_cases h : st.index + 4 ≤ st.data.length
    · rw [if_pos h]
      simp
    · rw [if_neg h]
      simp
  · intro h
    rw [pre_write_byte_spec st d h4 hL, if_neg (by omega)]
  · intro h
    rw [pre_write_byte_spec st d h4 hL, if_pos h]

/-- Witness for C9 (amended) on a 4-byte buffer with cursor 1: only 3 bytes
remain, so the call reports `OutOfBounds` without panicking, and the
capacity comparison value is exact. -/
theorem claim9_write_byte_guard_witness :
    sub_usize (List.replicate 4 (0:Nat)).length 4 = (List.replicate 4 (0:Nat)).length - 4 ∧
    pre_write_byte ⟨List.replicate 4 0, 1⟩ 0 ≠ .panicked ∧
    ((List.replicate 4 (0:Nat)).length < 1 + 4 →
      pre_write_byte ⟨List.replicate 4 0, 1⟩ 0 = .outOfBounds) ∧
    (1 + 4 ≤ (List.replicate 4 (0:Nat)).length →
      pre_write_byte ⟨List.replicate 4 0, 1⟩ 0 =
        .ok ⟨splice (List.replicate 4 0) 1 (encode_byte 0), 1 + 4⟩) :=
  claim9_write_byte_guard ⟨List.replicate 4 0, 1⟩ 0 (by decide) (by decide)

theorem POut.bind_eq_ok {α β : Type} {x : POut α} {f : α → POut β} {b : β}
    (h : POut.bind x f = .ok b) : ∃ a, x = .ok a ∧ f a = .ok b := by
  cases x with
  | ok a => exact ⟨a, rfl, h⟩
  | outOfBounds => exact absurd h (by simp [POut.bind])
  | panicked => exact absurd h (by simp [POut.bind])

/-- C5: every successful `write` ends with a post-latch gap of exactly 140
zero bytes, independent of the number of pixels, emitted only after the
whole input has been consumed.  For the streaming driver the full trace is
characterised — optional pre-latch, then the payload of all colours, then
exactly `List.replicate 140 0` — and for the prerendered driver every
successful call's transport trace has `List.replicate 140 0` as a suffix
(under both reset configurations). -/
theorem claim5_post_latch_gap :
    (∀ (mosi : Bool) (colors : List RGB8),
        lib_write mosi colors =
          (if mosi then List.replicate 140 0 else []) ++ lib_payload colors ++
            List.replicate 140 0) ∧
    (∀ (mosi rst : Bool) (st : PreState) (colors : List RGB8) (st' : PreState)
        (sent : List Nat),
        pre_write mosi rst st colors = .ok (st', sent) →
        List.replicate 140 0 <:+ sent) := by
  refine ⟨lib_write_eq, ?_⟩
  intro mosi rst st colors st' sent h
  unfold pre_write at h
  obtain ⟨st1, h1, h⟩ := POut.bind_eq_ok h
  obtain ⟨st2, h2, h⟩ := POut.bind_eq_ok h
  obtain ⟨st3, h3, h⟩ := POut.bind_eq_ok h
  simp only [POut.ok.injEq, Prod.mk.injEq] at h
  obtain ⟨hst, hsent⟩ := h
  cases rst with
  | false =>
      rw [if_neg (by simp)] at hsent
      rw [send_n_zeros_eq] at hsent
      exact ⟨st3.data.take st3.index, hsent⟩
  | true =>
      rw [pre_write_reset_spec st2] at h3
      by_cases hfit : st2.index + 140 ≤ st2.data.length
      · rw [if_pos hfit] at h3
        injection h3 with h3
        rw [if_pos rfl] at hsent
        subst h3
        have hthis : (splice st2.data st2.index (List.replicate 140 0)).take
            (st2.index + 140) = st2.data.take st2.index ++ List.replicate 140 0 := by
          have h := splice_take st2.data st2.index (List.replicate 140 0) (by simp; omega)
          simpa using h
        rw [hthis] at hsent
        exact ⟨st2.data.take st2.index, hsent⟩
      · rw [if_neg hfit] at h3
        exact absurd h3 (by simp)

/-- Witness for C5 at a concrete prerendered write: a 12-byte buffer, one
pixel, both reset features off; the transport trace is the encoded pixel
followed by the 140-zero post-latch gap. -/
theorem claim5_post_latch_gap_witness :
    List.replicate 140 0 <:+ (lib_payload_color ⟨1, 2, 3⟩ ++ List.replicate 140 0) :=
  claim5_post_latch_gap.2 false false ⟨List.replicate 12 0, 0⟩ [⟨1, 2, 3⟩]
    ⟨lib_payload_color ⟨1, 2, 3⟩, 12⟩
    (lib_payload_color ⟨1, 2, 3⟩ ++ List.replicate 140 0) (by decide)


/-! ### The hosted driver (`hosted.rs`)

The driver owns a growable `Vec<u8>` created as `vec![0; 140]`.  `write`
appends the encoded pixels, and `send_data` appends 140 zero bytes, hands
the whole buffer to `spi.write`, and — only if that call succeeds —
truncates the buffer back to its first 140 bytes. -/

/-- The mutable driver state of `hosted.rs`: the owned buffer. -/
structure HostState where
  data : List Nat
  deriving DecidableEq, Repr

/-- `hosted.rs::Ws2812::new`: `let data = vec![0; 140]`. -/
def hosted_new : HostState := ⟨List.replicate 140 0⟩

/-- The colour loop of `hosted.rs`: its `write_byte` pushes the same four
pattern bytes that `lib.rs` sends (the loop body is identical, with
`self.data.push` in place of `spi.write`), so the loop is the same
accumulator fold with the buffer as accumulator. -/
def hosted_write_colors : List Nat → List RGB8 → List Nat := lib_write_colors

/-- `hosted.rs::send_data`, with `spiFails` modelling a transport failure
on this call: `self.data.extend_from_slice(&[0; 140]);
self.spi.write(&self.data)?; self.data.truncate(140)`.  Returns the new
driver state, the slice handed to the transport, and whether the call
succeeded; on failure the `?` returns before `truncate`, keeping the grown
buffer. -/
def hosted_send_data (st : HostState) (spiFails : Bool) :
    HostState × List Nat × Bool :=
  let extended := st.data ++ List.replicate 140 0
  if spiFails then (⟨extended⟩, extended, false)
  else (⟨extended.take 140⟩, extended, true)

/-- `SmartLedsWrite::write` (`hosted.rs`), default `GRB` order: the colour
loop appends to the buffer, then `send_data`. -/
def hosted_write (st : HostState) (colors : List RGB8) (spiFails : Bool) :
    HostState × List Nat × Bool :=
  hosted_send_data ⟨hosted_write_colors st.data colors⟩ spiFails

/-- A sequence of `write` calls; each event holds the colours written and
whether the transport fails on that call.  Returns the bulk transfers
handed to the transport, in order. -/
def hosted_run : HostState → List (List RGB8 × Bool) → List (List Nat)
  | _, [] => []
  | st, (cs, f) :: evs => ((hosted_write st cs f).2.1) :: hosted_run (hosted_write st cs f).1 evs

theorem take_140_append (l x : List Nat) (h : l.take 140 = List.replicate 140 0) :
    (l ++ x).take 140 = List.replicate 140 0 := by
  have hlen : 140 ≤ l.length := by
    have := congrArg List.length h
    simp [List.length_take] at this
    omega
  rw [List.take_append_eq_append_take, Nat.sub_eq_zero_of_le hlen, List.take_zero,
    List.append_nil, h]

theorem hosted_write_keeps_zeros (st : HostState) (cs : List RGB8) (f : Bool)
    (h : st.data.take 140 = List.replicate 140 0) :
    ((hosted_write st cs f).2.1).take 140 = List.replicate 140 0 ∧
    ((hosted_write st cs f).1).data.take 140 = List.replicate 140 0 := by
  have htr : (hosted_write st cs f).2.1 =
      st.data ++ (lib_payload cs ++ List.replicate 140 0) := by
    unfold hosted_write hosted_send_data hosted_write_colors
    rw [lib_write_colors_eq]
    cases f <;> simp [List.append_assoc]
  have htake : ((hosted_write st cs f).2.1).take 140 = List.replicate 140 0 := by
    rw [htr]
    exact take_140_append _ _ h
  refine ⟨htake, ?_⟩
  unfold hosted_write hosted_send_data hosted_write_colors
  cases f with
  | true =>
      simp only [if_pos rfl]
      rw [lib_write_colors_eq, List.append_assoc]
      exact take_140_append _ _ h
  | false =>
      simp only [if_neg (by simp : ¬(false = true))]
      have : ((st.data ++ lib_payload cs) ++ List.replicate 140 0).take 140 =
          List.replicate 140 0 := by
        rw [List.append_assoc]
        exact take_140_append _ _ h
      rw [lib_write_colors_eq, this]
      simp

theorem hosted_run_keeps_zeros (evs : List (List RGB8 × Bool)) :
    ∀ st : HostState, st.data.take 140 = List.replicate 140 0 →
      ∀ tr ∈ hosted_run st evs, tr.take 140 = List.replicate 140 0 := by
  induction evs with
  | nil =>
      intro st _ tr htr
      simp [hosted_run] at htr
  | cons ev evs ih =>
      intro st hst tr htr
      obtain ⟨cs, f⟩ := ev
      rw [hosted_run] at htr
      rcases List.mem_cons.mp htr with heq | hmem
      · rw [heq]
        exact (hosted_write_keeps_zeros st cs f hst).1
      · exact ih (hosted_write st cs f).1 (hosted_write_keeps_zeros st cs f hst).2 tr hmem

/-! ### Claims C10 and C8 -/

/-- C10: in hosted mode, every bulk transfer handed to the SPI transport
begins with 140 zero bytes, on every write of every run from construction
(transport failures included); the buffer is created holding 140 zeros and
a successful send truncates it back to exactly those 140 bytes. -/
theorem claim10_hosted_leading_zeros :
    (∀ (evs : List (List RGB8 × Bool)) (tr : List Nat),
        tr ∈ hosted_run hosted_new evs → tr.take 140 = List.replicate 140 0) ∧
    hosted_new.data = List.replicate 140 0 ∧
    (∀ (st : HostState) (colors : List RGB8),
        st.data.take 140 = List.replicate 140 0 →
        ((hosted_write st colors false).1).data = List.replicate 140 0) := by
  refine ⟨?_, rfl, ?_⟩
  · intro evs tr htr
    exact hosted_run_keeps_zeros evs hosted_new (by simp [hosted_new]) tr htr
  · intro st colors h
    have hlen : 140 ≤ st.data.length := by
      have := congrArg List.length h
      simp [List.length_take] at this
      omega
    unfold hosted_write hosted_send_data hosted_write_colors
    simp only [if_neg (by simp : ¬(false = true))]
    rw [lib_write_colors_eq, List.append_assoc]
    exact take_140_append _ _ h

/-- Witness for C10: one successful single-pixel write from construction;
the recorded transfer begins with the 140-zero pre-frame gap. -/
theorem claim10_hosted_leading_zeros_witness :
    (List.replicate 140 0 ++ lib_payload [⟨1, 2, 3⟩] ++ List.replicate 140 0).take 140 =
      List.replicate 140 0 :=
  claim10_hosted_leading_zeros.1 [([⟨1, 2, 3⟩], false)]
    (List.replicate 140 0 ++ lib_payload [⟨1, 2, 3⟩] ++ List.replicate 140 0) (by decide)

/-- C8 counterexample: the hosted driver violates the claim.  Run two
writes from construction: the first (one pixel) fails at the transport,
the second (a different pixel) succeeds.  The failed frame is never
discarded — the second bulk transfer is the entire first transfer
(292 bytes) followed by the new payload and reset, 444 bytes instead of
the 292 a fresh frame would be, so data left over from the previous failed
write call is transmitted as part of the later frame. -/
theorem claim8_counterexample :
    ((hosted_run hosted_new [([⟨1, 2, 3⟩], true), ([⟨4, 5, 6⟩], false)]).getD 0 []).length
        = 140 + 12 + 140 ∧
    (hosted_run hosted_new [([⟨1, 2, 3⟩], true), ([⟨4, 5, 6⟩], false)]).getD 1 [] =
      (hosted_run hosted_new [([⟨1, 2, 3⟩], true), ([⟨4, 5, 6⟩], false)]).getD 0 [] ++
        (lib_payload_color ⟨4, 5, 6⟩ ++ List.replicate 140 0) ∧
    ((hosted_run hosted_new [([⟨1, 2, 3⟩], true), ([⟨4, 5, 6⟩], false)]).getD 1 []).length
        ≠ 140 + 12 + 140 := by
  refine ⟨by decide, by decide, by decide⟩

/-- C8 (amended): the prerendered driver does reset its write cursor to
zero at the start of every write call — the call's outcome is independent
of the incoming cursor.  The hosted driver instead relies on truncating
its buffer back to the 140-zero prefix after a successful send: a
successful write from the clean state transmits exactly
prefix ++ payload ++ reset and returns to the clean state, but after a
transport failure the whole failed frame stays in the buffer and is
transmitted as part of the next frame (see the counterexample). -/
theorem claim8_buffer_reuse :
    (∀ (l : List Nat) (i i' : Nat) (mosi rst : Bool) (cs : List RGB8),
        pre_write mosi rst ⟨l, i⟩ cs = pre_write mosi rst ⟨l, i'⟩ cs) ∧
    (∀ colors : List RGB8,
        hosted_write ⟨List.replicate 140 0⟩ colors false =
          (⟨List.replicate 140 0⟩,
            List.replicate 140 0 ++ lib_payload colors ++ List.replicate 140 0, true)) ∧
    (∀ (st : HostState) (colors : List RGB8),
        ((hosted_write st colors true).1).data =
          st.data ++ lib_payload colors ++ List.replicate 140 0) := by
  refine ⟨fun l i i' mosi rst cs => rfl, ?_, ?_⟩
  · intro colors
    have hpre : ((List.replicate 140 (0:Nat) ++ lib_payload colors) ++
        List.replicate 140 0).take 140 = List.replicate 140 0 := by
      rw [List.append_assoc]
      exact take_140_append _ _ (by simp)
    unfold hosted_write hosted_send_data hosted_write_colors
    simp only [if_neg (by simp : ¬(false = true))]
    rw [lib_write_colors_eq, hpre]
  · intro st colors
    unfold hosted_write hosted_send_data hosted_write_colors
    rw [lib_write_colors_eq]
    simp [List.append_assoc]

end WsSpi
